import Mathlib

/-!
# Verification of the funchain library (funchain.go)

A shallow embedding of the funchain Go library: a function-chaining utility
in which the return values of one step become the arguments of the next,
with error short-circuiting, lifecycle hooks, guaranteed cleanups, and
reflection-based dynamic invocation.

Modelling conventions:
* Go dynamic values flowing between steps (`[]interface{}`) are `GoVal`;
  Go reflective types are `GoType`.  `GoVal.nilOf t` is the zero / nil value
  of an interface, pointer or other composite type `t` (as produced by
  `reflect.Zero`).
* A Go function value is a `GoFunc`: its reflective signature
  (`inTypes`, `outTypes`, non-variadic) plus a `body` mapping a
  fully-adapted argument vector to either returned values or a panic.
  The `id` field instruments the function identity so that the event trace
  can record which step bodies were actually invoked.
* User hooks and cleanups are opaque side-effecting procedures; their
  observable behaviour is modelled as the trace event they emit when fired
  plus a `panics` flag.  The Go code wraps every hook / cleanup call in
  `func(){ defer func(){ recover() }(); hook(...) }()`, so the panic is
  swallowed; the translation runs the body and discards its panic component.
* Errors are Go `error` interface values; every error value the engine sees
  is a non-nil concrete error `GoVal.errV msg` (as produced by `errors.New`
  or `fmt.Errorf`), and a nil error is `GoVal.nilOf GoType.errorIface`.
* A panic of the driver itself (e.g. `reflect.Value.Set` on an incompatible
  destination) is the `DoOutcome.panicked` outcome; the registered defers
  still run on that path, exactly as Go defers do.
-/

/-- Reflective Go types, as compared by the engine.  `errorIface` is the
`error` interface type itself; `concreteErr name` is a concrete named type
that implements `error` but is not identical to it. -/
inductive GoType where
  | intT
  | stringT
  | boolT
  | anyT
  | errorIface
  | concreteErr (name : String)
  | ptrT (name : String)
  | otherT (name : String)
deriving DecidableEq, Repr

/-- Dynamically typed Go values, the entries of the `[]interface{}` vectors
flowing between steps.  `nilOf t` is the zero value of a nilable type `t`. -/
inductive GoVal where
  | intV (n : Int)
  | strV (s : String)
  | boolV (b : Bool)
  | errV (msg : String)
  | nilOf (t : GoType)
deriving DecidableEq, Repr

/-- Dynamic type of a value, as `reflect.TypeOf` reports it.  All concrete
error values are given the type produced by `errors.New`. -/
def GoVal.typeOf : GoVal → GoType
  | .intV _ => .intT
  | .strV _ => .stringT
  | .boolV _ => .boolT
  | .errV _ => .concreteErr "errorString"
  | .nilOf t => t

/-- Zero value of a type, as `reflect.Zero` produces it: numbers are 0,
text is empty, booleans are false, interface / pointer / composite types
are nil / absent. -/
def zeroVal : GoType → GoVal
  | .intT => .intV 0
  | .stringT => .strV ""
  | .boolT => .boolV false
  | t => .nilOf t

/-- Whether a dynamic type implements the `error` interface without being
identical to it: exactly the concrete error types. -/
def implementsError : GoType → Bool
  | .concreteErr _ => true
  | _ => false

/-- Go assignability of a value of dynamic type `s` to a parameter or
destination of type `t`, as checked by `reflect.Value.Call` and
`reflect.Value.Set`: identical type, the empty interface, or the `error`
interface when `s` implements it. -/
def assignable (s t : GoType) : Bool :=
  s = t || t = .anyT || (t = .errorIface && implementsError s)

/-- Result of running a Go function body: returned values, or a panic with
its payload rendered as text (the `%v` formatting of the payload). -/
inductive CallResult where
  | ret (vals : List GoVal)
  | panicV (payload : String)
deriving Repr

/-- A Go function value, by its reflective signature and behaviour.
Non-variadic; `body` receives an argument vector that `reflect.Call` has
already accepted (correct length and assignable types).  `id` is an
instrumentation tag recording in the trace that this body was invoked. -/
structure GoFunc where
  id : Nat
  inTypes : List GoType
  outTypes : List GoType
  body : List GoVal → CallResult

/-- A Go `interface{}` argument as passed to `New` / `Then` / `execFunc`:
a function value, a non-function value, or the untyped nil interface. -/
inductive GoAny where
  | fnV (f : GoFunc)
  | val (v : GoVal)
  | nilAny

/-- Observable events of one `Do` run: hook firings (with the vectors they
were handed), actual invocations of step bodies, and cleanup firings. -/
inductive Event where
  | beforeE (id : Nat) (input : List GoVal)
  | afterE (id : Nat) (input : List GoVal) (output : List GoVal)
  | errE (id : Nat) (output : List GoVal) (e : GoVal)
  | stepRun (id : Nat)
  | cleanupE (id : Nat)
deriving DecidableEq, Repr

/-- Checked reflective call, the semantics of `rf.Call(in)` in `execFunc`
(the `reflect.MakeFunc` wrapper forwards to `funcValue.Call`, so it is the
checked call of `f` itself).  `reflect.Value.Call` panics when the argument
count does not match a non-variadic signature or when an argument is not
assignable; only when the checks pass is the body actually invoked, which
the event list records. -/
def callGo (f : GoFunc) (args : List GoVal) : CallResult × List Event :=
  if f.inTypes.length < args.length then
    (.panicV "reflect: Call with too many input arguments", [])
  else if args.length < f.inTypes.length then
    (.panicV "reflect: Call with too few input arguments", [])
  else if (List.zip args f.inTypes).all (fun p => assignable p.1.typeOf p.2) then
    (f.body args, [Event.stepRun f.id])
  else
    (.panicV "reflect: Call using wrong argument type", [])

/-- Scan of the declared output types for positions whose type is exactly
the `error` interface (`funcType.Out(i) == errorType`), from `execFunc`:
`i` is the index of the next position, `acc` the error index found so far;
a second match is the configuration fault. -/
def findErrAux : List GoType → Nat → Option Nat → Except String (Option Nat)
  | [], _, acc => .ok acc
  | t :: rest, i, acc =>
    if t = GoType.errorIface then
      match acc with
      | some _ => .error "more than one error"
      | none => findErrAux rest (i + 1) (some i)
    else findErrAux rest (i + 1) acc

/-- Error-slot detection of `execFunc`: at most one output position may be
declared exactly as the `error` interface type. -/
def findErrIndex (outs : List GoType) : Except String (Option Nat) :=
  findErrAux outs 0 none

/-- Output splitting loop of `execFunc`, from position `i`: the value at
the error index becomes the step error when it is a non-nil value
implementing `error` (the `returnVal.Interface().(error)` assertion);
every other position is appended, in order, to the ordinary results. -/
def splitAux : List GoVal → Nat → Option Nat → List GoVal × Option GoVal
  | [], _, _ => ([], none)
  | v :: rest, i, errIdx =>
    let r := splitAux rest (i + 1) errIdx
    if some i = errIdx then
      (r.1, match v with
            | .errV m => some (.errV m)
            | _ => r.2)
    else (v :: r.1, r.2)

/-- Splitting of a returned value vector into (ordinary outputs, optional
step error) around the detected error index. -/
def splitOutputs (vals : List GoVal) (errIdx : Option Nat) :
    List GoVal × Option GoVal :=
  splitAux vals 0 errIdx

/-- Translation of `execFunc(f, args)`.  `Except.error` is a panic escaping
`execFunc` itself, which happens only for the nil interface (where
`reflect.TypeOf(f)` is nil and `.Kind()` dereferences it); every other
input yields `.ok (results, stepError, invocationEvents)`.  A non-function
yields the `not a function` error; a second exact-`error` output yields the
`more than one error` error before any invocation; otherwise the argument
vector is extended with `reflect.Zero` values for the missing trailing
parameters and the checked call is performed under `recover`, converting a
panic into the `panic occurred: %v` error with nil results. -/
def execFunc (f : GoAny) (args : List GoVal) :
    Except String (List GoVal × Option GoVal × List Event) :=
  match f with
  | .nilAny =>
      .error "runtime error: invalid memory address or nil pointer dereference"
  | .val _ => .ok ([], some (.errV "not a function"), [])
  | .fnV fn =>
    match findErrIndex fn.outTypes with
    | .error m => .ok ([], some (.errV m), [])
    | .ok errIdx =>
      let padded := args ++ (fn.inTypes.drop args.length).map zeroVal
      match callGo fn padded with
      | (.panicV p, evs) =>
          .ok ([], some (.errV ("panic occurred: " ++ p)), evs)
      | (.ret outs, evs) =>
          let r := splitOutputs outs errIdx
          .ok (r.1, r.2, evs)

/-- A user hook (`BeforeHookFunc`, `AfterHookFunc` or `ErrorHookFunc`):
its observable behaviour when fired is the event it emits, and whether its
body panics after that. -/
structure Hook where
  id : Nat
  panics : Bool
deriving DecidableEq, Repr

/-- A cleanup procedure registered with `Defer`, with the same observable
behaviour model as a hook. -/
structure Cleanup where
  id : Nat
  panics : Bool
deriving DecidableEq, Repr

/-- Body of a before hook called with `input`: the events it emits and the
panic it raises, if any. -/
def runBeforeHook (h : Hook) (input : List GoVal) :
    List Event × Option String :=
  ([.beforeE h.id input], if h.panics then some "hook panicked" else none)

/-- Body of an after hook called with `(input, output)`. -/
def runAfterHook (h : Hook) (input output : List GoVal) :
    List Event × Option String :=
  ([.afterE h.id input output], if h.panics then some "hook panicked" else none)

/-- Body of an error hook called with `(output, err)`. -/
def runErrHook (h : Hook) (output : List GoVal) (e : GoVal) :
    List Event × Option String :=
  ([.errE h.id output e], if h.panics then some "hook panicked" else none)

/-- Firing of the before-hook list in `Do`: a nil hook is skipped, and each
call is wrapped as `func(){ defer func(){ recover() }(); hook(args) }()`,
so only the emitted events remain; the panic component is discarded by the
recover and the iteration continues with the next hook. -/
def fireBefore (hooks : List (Option Hook)) (input : List GoVal) : List Event :=
  match hooks with
  | [] => []
  | none :: rest => fireBefore rest input
  | some h :: rest => (runBeforeHook h input).1 ++ fireBefore rest input

/-- Firing of the after-hook list in `Do`, with the same nil skipping and
per-hook recover as the before hooks. -/
def fireAfter (hooks : List (Option Hook)) (input output : List GoVal) :
    List Event :=
  match hooks with
  | [] => []
  | none :: rest => fireAfter rest input output
  | some h :: rest => (runAfterHook h input output).1 ++ fireAfter rest input output

/-- Firing of the error-hook list in `Do`, with the same nil skipping and
per-hook recover. -/
def fireErrH (hooks : List (Option Hook)) (output : List GoVal) (e : GoVal) :
    List Event :=
  match hooks with
  | [] => []
  | none :: rest => fireErrH rest output e
  | some h :: rest => (runErrHook h output e).1 ++ fireErrH rest output e

/-- An output destination handed to `Do`, by its reflective properties:
`canSet` is whether `reflect.ValueOf(out[i])`, after `Elem()` on a pointer,
is settable (false for a non-pointer or nil pointer), `ty` the element type
and `val` its current value. -/
structure Dest where
  canSet : Bool
  ty : GoType
  val : GoVal
deriving DecidableEq, Repr

/-- Default destination used for positional indexing in statements. -/
def dDest : Dest := { canSet := false, ty := .intT, val := .intV 0 }

/-- Default value used for positional indexing in statements. -/
def dVal : GoVal := .intV 0

/-- The output-binding loop at the end of `Do`, pairing final results with
destinations: the loop breaks when the results run out (`i >= len(args)`),
leaving the remaining destinations untouched; a non-settable destination is
skipped with `continue`; otherwise `dst.Set(src)` stores the value, or
panics when the value's type is not assignable to the destination type.
The returned list carries the destination states (including partial updates
made before a panic) and the panic, if one occurred. -/
def bindOuts : List GoVal → List Dest → List Dest × Option String
  | _, [] => ([], none)
  | [], ds => (ds, none)
  | a :: as2, d :: ds =>
    if d.canSet = false then
      let r := bindOuts as2 ds
      (d :: r.1, r.2)
    else if assignable a.typeOf d.ty then
      let r := bindOuts as2 ds
      ({ d with val := a } :: r.1, r.2)
    else
      (d :: ds, some "reflect.Set: value of wrong type is not assignable")

/-- The `FunChain` structure: the ordered step list, the cleanup list and
the three hook lists.  A nil hook value is representable (`Option.none`)
because the Go slices hold function values that may be nil. -/
structure FunChain where
  funcs : List GoAny
  defers : List Cleanup
  beforeHooks : List (Option Hook)
  afterHooks : List (Option Hook)
  errHooks : List (Option Hook)

/-- Filtering loop shared by `New` and `Then`: each argument is kept only
when `reflect.TypeOf(fn).Kind() == reflect.Func`.  For the nil interface,
`reflect.TypeOf` returns nil and the `Kind()` call panics, which escapes
the constructor (`Except.error`). -/
def filterFns : List GoAny → Except String (List GoAny)
  | [] => .ok []
  | .nilAny :: _ =>
      .error "runtime error: invalid memory address or nil pointer dereference"
  | .fnV f :: rest => (filterFns rest).map (fun l => .fnV f :: l)
  | .val _ :: rest => filterFns rest

/-- Translation of `New(fns...)`: a fresh chain whose step list is the
function-kind arguments, in order. -/
def New (fns : List GoAny) : Except String FunChain :=
  (filterFns fns).map (fun l =>
    { funcs := l, defers := [], beforeHooks := [], afterHooks := [],
      errHooks := [] })

/-- Translation of `(*FunChain).Then(fns...)`: appends the function-kind
arguments to the step list. -/
def FunChain.Then (fc : FunChain) (fns : List GoAny) : Except String FunChain :=
  (filterFns fns).map (fun l => { fc with funcs := fc.funcs ++ l })

/-- Translation of `(*FunChain).Defer(fs...)`. -/
def FunChain.Defer (fc : FunChain) (fs : List Cleanup) : FunChain :=
  { fc with defers := fc.defers ++ fs }

/-- Translation of `(*FunChain).Before(hooks...)`. -/
def FunChain.Before (fc : FunChain) (hooks : List (Option Hook)) : FunChain :=
  { fc with beforeHooks := fc.beforeHooks ++ hooks }

/-- Translation of `(*FunChain).After(hooks...)`. -/
def FunChain.After (fc : FunChain) (hooks : List (Option Hook)) : FunChain :=
  { fc with afterHooks := fc.afterHooks ++ hooks }

/-- Translation of `(*FunChain).OnError(hooks...)`. -/
def FunChain.OnError (fc : FunChain) (hooks : List (Option Hook)) : FunChain :=
  { fc with errHooks := fc.errHooks ++ hooks }

/-- Result of the step loop of `Do`: all steps succeeded, a step produced a
non-nil error (short-circuit with that step's ordinary outputs), or a panic
escaped `execFunc` itself (only the nil-interface step). -/
inductive LoopRes where
  | done (args : List GoVal) (trace : List Event)
  | failed (args2 : List GoVal) (e : GoVal) (trace : List Event)
  | crashed (msg : String) (trace : List Event)
deriving Repr

/-- The per-step loop of `Do` over the step list, threading the argument
vector (initially empty) and the accumulated trace: fire the before hooks,
invoke the step, fire the after hooks (also when the step erred), then on a
non-nil step error fire the error hooks and short-circuit, returning that
step's outputs and error; otherwise the outputs become the next arguments. -/
def stepLoop (bh ah eh : List (Option Hook)) :
    List GoAny → List GoVal → List Event → LoopRes
  | [], args, tr => .done args tr
  | fn :: rest, args, tr =>
    let tr1 := tr ++ fireBefore bh args
    match execFunc fn args with
    | .error m => .crashed m tr1
    | .ok (args2, err, evs) =>
      let tr2 := tr1 ++ evs ++ fireAfter ah args args2
      match err with
      | some e => .failed args2 e (tr2 ++ fireErrH eh args2 e)
      | none => stepLoop bh ah eh rest args2 tr2

/-- Final outcome of a `Do` call: a normal return of `(result, err)`, or a
panic of the driver itself (binding to an incompatible destination, or a
nil-interface step reaching `execFunc`). -/
inductive DoOutcome where
  | ret (result : List GoVal) (err : Option GoVal)
  | panicked (msg : String)
deriving DecidableEq, Repr

/-- Everything observable about one `Do` call: its outcome, the full event
trace, and the final destination states. -/
structure DoRes where
  outcome : DoOutcome
  trace : List Event
  dests : List Dest
deriving Repr

/-- Translation of `(*FunChain).Do(out...)`.  The defers registered first
run on every exit path, last-registered-first, each wrapped in its own
recover, so their events close the trace in reverse registration order in
all branches — after a step error (where `Do` returns the failing step's
outputs and error without touching the destinations), after a driver panic,
and after the successful run, where the output-binding loop writes the
final arguments into the settable destinations before returning. -/
def FunChain.Do (fc : FunChain) (out : List Dest) : DoRes :=
  let cleanupEvs := fc.defers.reverse.map (fun c => Event.cleanupE c.id)
  match stepLoop fc.beforeHooks fc.afterHooks fc.errHooks fc.funcs [] [] with
  | .failed args2 e tr =>
      { outcome := .ret args2 (some e), trace := tr ++ cleanupEvs, dests := out }
  | .crashed m tr =>
      { outcome := .panicked m, trace := tr ++ cleanupEvs, dests := out }
  | .done args tr =>
      let b := bindOuts args out
      match b.2 with
      | some m =>
          { outcome := .panicked m, trace := tr ++ cleanupEvs, dests := b.1 }
      | none =>
          { outcome := .ret args none, trace := tr ++ cleanupEvs, dests := b.1 }

/-- Trace component of a step-loop result. -/
def LoopRes.trace : LoopRes → List Event
  | .done _ t => t
  | .failed _ _ t => t
  | .crashed _ t => t

/-- Whether an event is a cleanup firing. -/
def Event.isCleanup : Event → Bool
  | .cleanupE _ => true
  | _ => false

/-- Whether an event is an actual invocation of a step body. -/
def Event.isStepRun : Event → Bool
  | .stepRun _ => true
  | _ => false

/-- A hook with its `panics` flag cleared; nil hooks stay nil. -/
def scrubHook : Option Hook → Option Hook
  | none => none
  | some h => some { h with panics := false }

/-- The same chain with every hook and cleanup made non-panicking, for
stating that hook / cleanup panics are invisible to the chain result. -/
def scrubPanics (fc : FunChain) : FunChain :=
  { fc with
    defers := fc.defers.map (fun c => { c with panics := false }),
    beforeHooks := fc.beforeHooks.map scrubHook,
    afterHooks := fc.afterHooks.map scrubHook,
    errHooks := fc.errHooks.map scrubHook }

/-- Fixture: `func() int { return 7 }`. -/
def seven : GoFunc :=
  { id := 1, inTypes := [], outTypes := [.intT],
    body := fun _ => .ret [.intV 7] }

/-- Fixture: `func(a, b int) int { return a * b }`. -/
def mulFn : GoFunc :=
  { id := 2, inTypes := [.intT, .intT], outTypes := [.intT],
    body := fun a =>
      match a with
      | [.intV x, .intV y] => .ret [.intV (x * y)]
      | _ => .panicV "unexpected arguments" }

/-- Fixture: `func() (string, error) { return "hello", nil }`. -/
def helloFn : GoFunc :=
  { id := 3, inTypes := [], outTypes := [.stringT, .errorIface],
    body := fun _ => .ret [.strV "hello", .nilOf .errorIface] }

/-- Fixture: `func(s string) (int, error) { return 5, errors.New("boom") }`. -/
def failFn : GoFunc :=
  { id := 5, inTypes := [.stringT], outTypes := [.intT, .errorIface],
    body := fun _ => .ret [.intV 5, .errV "boom"] }

/-- Fixture: a step placed after the failing one, to show it never runs. -/
def postFn : GoFunc :=
  { id := 6, inTypes := [.intT], outTypes := [.intT],
    body := fun a =>
      match a with
      | [.intV x] => .ret [.intV (x + 1)]
      | _ => .panicV "unexpected arguments" }

/-- Fixture: `func() int { panic("boom payload") }`. -/
def panicFn : GoFunc :=
  { id := 7, inTypes := [], outTypes := [.intT],
    body := fun _ => .panicV "boom payload" }

/-- Fixture: `func() (error, error)`, the two-error-outputs configuration. -/
def twoErrFn : GoFunc :=
  { id := 8, inTypes := [], outTypes := [.errorIface, .errorIface],
    body := fun _ => .ret [.nilOf .errorIface, .nilOf .errorIface] }

/-- Fixture: `func() (int, int) { return 1, 2 }`. -/
def twoOutFn : GoFunc :=
  { id := 10, inTypes := [], outTypes := [.intT, .intT],
    body := fun _ => .ret [.intV 1, .intV 2] }

/-- Fixture: `func(a int) int { return a }`, a one-parameter callable. -/
def oneParamFn : GoFunc :=
  { id := 11, inTypes := [.intT], outTypes := [.intT],
    body := fun a =>
      match a with
      | [.intV x] => .ret [.intV x]
      | _ => .panicV "unexpected arguments" }

/-- Fixture: `func() *myError { return &myError{"boom"} }` — its output
type implements `error` but is not the `error` interface itself. -/
def concErrFn : GoFunc :=
  { id := 12, inTypes := [], outTypes := [.concreteErr "errorString"],
    body := fun _ => .ret [.errV "boom"] }

/-- Fixture: `func() (int, error) { return 5, nil }`. -/
def okFn : GoFunc :=
  { id := 13, inTypes := [], outTypes := [.intT, .errorIface],
    body := fun _ => .ret [.intV 5, .nilOf .errorIface] }

/-- Fixture: a step consuming the concrete error produced by `concErrFn`,
showing it arrives as an ordinary argument. -/
def readErrFn : GoFunc :=
  { id := 14, inTypes := [.concreteErr "errorString"], outTypes := [.stringT],
    body := fun a =>
      match a with
      | [.errV m] => .ret [.strV m]
      | _ => .ret [.strV "no error value"] }

example : execFunc (.val (.intV 3)) [] =
    .ok ([], some (.errV "not a function"), []) := rfl

example : execFunc (.fnV mulFn) [.intV 7] =
    .ok ([.intV 0], none, [.stepRun 2]) := rfl

example :
    (New [.fnV seven]).map (fun c =>
      (FunChain.Do (c.Then [.fnV mulFn] |>.toOption |>.getD c)
        [{ canSet := true, ty := .intT, val := .intV 99 }]).dests) =
    .ok [{ canSet := true, ty := .intT, val := .intV 0 }] := rfl

example : execFunc (.fnV oneParamFn) [.intV 1, .intV 2] =
    .ok ([],
      some (.errV "panic occurred: reflect: Call with too many input arguments"),
      []) := rfl

example :
    FunChain.Do
      { funcs := [.fnV failFn], defers := [⟨21, false⟩, ⟨22, true⟩],
        beforeHooks := [], afterHooks := [], errHooks := [] }
      [{ canSet := true, ty := .intT, val := .intV 99 }] =
    { outcome := .ret [.intV 5] (some (.errV "boom")),
      trace := [.stepRun 5, .cleanupE 22, .cleanupE 21],
      dests := [{ canSet := true, ty := .intT, val := .intV 99 }] } := rfl

example : New [.nilAny] =
    .error "runtime error: invalid memory address or nil pointer dereference" := rfl

example : execFunc (.fnV concErrFn) [] =
    .ok ([.errV "boom"], none, [.stepRun 12]) := rfl

example : execFunc (.fnV twoErrFn) [] =
    .ok ([], some (.errV "more than one error"), []) := rfl

example : execFunc (.fnV panicFn) [] =
    .ok ([], some (.errV "panic occurred: boom payload"), [.stepRun 7]) := rfl

/-! ## Helper lemmas about hook firing and traces -/

theorem fireBefore_filterMap (hooks : List (Option Hook)) (input : List GoVal) :
    fireBefore hooks input =
      hooks.filterMap (Option.map (fun h => Event.beforeE h.id input)) := by
  induction hooks with
  | nil => rfl
  | cons h rest ih =>
    cases h <;> simp [fireBefore, runBeforeHook, ih]

theorem fireAfter_filterMap (hooks : List (Option Hook))
    (input output : List GoVal) :
    fireAfter hooks input output =
      hooks.filterMap (Option.map (fun h => Event.afterE h.id input output)) := by
  induction hooks with
  | nil => rfl
  | cons h rest ih =>
    cases h <;> simp [fireAfter, runAfterHook, ih]

theorem fireErrH_filterMap (hooks : List (Option Hook))
    (output : List GoVal) (e : GoVal) :
    fireErrH hooks output e =
      hooks.filterMap (Option.map (fun h => Event.errE h.id output e)) := by
  induction hooks with
  | nil => rfl
  | cons h rest ih =>
    cases h <;> simp [fireErrH, runErrHook, ih]

theorem fireBefore_noCleanup (hooks : List (Option Hook)) (input : List GoVal) :
    (fireBefore hooks input).filter Event.isCleanup = [] := by
  induction hooks with
  | nil => rfl
  | cons h rest ih =>
    cases h <;> simp [fireBefore, runBeforeHook, Event.isCleanup, ih]

theorem fireAfter_noCleanup (hooks : List (Option Hook))
    (input output : List GoVal) :
    (fireAfter hooks input output).filter Event.isCleanup = [] := by
  induction hooks with
  | nil => rfl
  | cons h rest ih =>
    cases h <;> simp [fireAfter, runAfterHook, Event.isCleanup, ih]

theorem fireErrH_noCleanup (hooks : List (Option Hook))
    (output : List GoVal) (e : GoVal) :
    (fireErrH hooks output e).filter Event.isCleanup = [] := by
  induction hooks with
  | nil => rfl
  | cons h rest ih =>
    cases h <;> simp [fireErrH, runErrHook, Event.isCleanup, ih]

theorem fireBefore_noStepRun (hooks : List (Option Hook)) (input : List GoVal) :
    ∀ ev ∈ fireBefore hooks input, ev.isStepRun = false := by
  induction hooks with
  | nil => intro ev hev; cases hev
  | cons h rest ih =>
    intro ev hev
    cases h with
    | none => exact ih ev hev
    | some hk =>
      simp only [fireBefore, runBeforeHook, List.cons_append, List.nil_append,
        List.mem_cons] at hev
      rcases hev with hev | hev
      · subst hev; rfl
      · exact ih ev hev

theorem fireAfter_noStepRun (hooks : List (Option Hook))
    (input output : List GoVal) :
    ∀ ev ∈ fireAfter hooks input output, ev.isStepRun = false := by
  induction hooks with
  | nil => intro ev hev; cases hev
  | cons h rest ih =>
    intro ev hev
    cases h with
    | none => exact ih ev hev
    | some hk =>
      simp only [fireAfter, runAfterHook, List.cons_append, List.nil_append,
        List.mem_cons] at hev
      rcases hev with hev | hev
      · subst hev; rfl
      · exact ih ev hev

theorem fireErrH_noStepRun (hooks : List (Option Hook))
    (output : List GoVal) (e : GoVal) :
    ∀ ev ∈ fireErrH hooks output e, ev.isStepRun = false := by
  induction hooks with
  | nil => intro ev hev; cases hev
  | cons h rest ih =>
    intro ev hev
    cases h with
    | none => exact ih ev hev
    | some hk =>
      simp only [fireErrH, runErrHook, List.cons_append, List.nil_append,
        List.mem_cons] at hev
      rcases hev with hev | hev
      · subst hev; rfl
      · exact ih ev hev

theorem cleanupEvs_filter (l : List Cleanup) :
    (l.map (fun c => Event.cleanupE c.id)).filter Event.isCleanup =
      l.map (fun c => Event.cleanupE c.id) := by
  induction l with
  | nil => rfl
  | cons c rest ih => simp [Event.isCleanup, ih]

theorem cleanupEvs_noStepRun (l : List Cleanup) :
    ∀ ev ∈ l.map (fun c => Event.cleanupE c.id), ev.isStepRun = false := by
  induction l with
  | nil => intro ev hev; cases hev
  | cons c rest ih =>
    intro ev hev
    rcases List.mem_cons.mp hev with hev | hev
    · subst hev; rfl
    · exact ih ev hev

theorem callGo_evs (f : GoFunc) (args : List GoVal) :
    (callGo f args).2 = [] ∨ (callGo f args).2 = [Event.stepRun f.id] := by
  unfold callGo
  split_ifs <;> simp

theorem execFunc_evs (f : GoAny) (args : List GoVal)
    (r : List GoVal × Option GoVal × List Event) (h : execFunc f args = .ok r) :
    r.2.2 = [] ∨ ∃ i, r.2.2 = [Event.stepRun i] := by
  cases f with
  | nilAny => simp [execFunc] at h
  | val v =>
    simp only [execFunc] at h
    cases h
    exact Or.inl rfl
  | fnV fn =>
    simp only [execFunc] at h
    rcases hfi : findErrIndex fn.outTypes with m | idx <;> rw [hfi] at h
    · cases h; exact Or.inl rfl
    · rcases hc : callGo fn (args ++ (fn.inTypes.drop args.length).map zeroVal)
        with ⟨cr, evs⟩
      rw [hc] at h
      have hevs : evs = [] ∨ evs = [Event.stepRun fn.id] := by
        have := callGo_evs fn (args ++ (fn.inTypes.drop args.length).map zeroVal)
        rw [hc] at this
        exact this
      cases cr <;> cases h <;>
        rcases hevs with hevs | hevs <;> rw [hevs] <;>
        first
          | exact Or.inl rfl
          | exact Or.inr ⟨fn.id, rfl⟩

theorem execFunc_noCleanup (f : GoAny) (args : List GoVal)
    (r : List GoVal × Option GoVal × List Event) (h : execFunc f args = .ok r) :
    r.2.2.filter Event.isCleanup = [] := by
  rcases execFunc_evs f args r h with he | ⟨i, he⟩ <;> rw [he] <;>
    simp [Event.isCleanup]

theorem execFunc_noCleanup_mem (f : GoAny) (args : List GoVal)
    (r : List GoVal × Option GoVal × List Event) (h : execFunc f args = .ok r) :
    ∀ ev ∈ r.2.2, ev.isCleanup = false := by
  rcases execFunc_evs f args r h with he | ⟨i, he⟩ <;> rw [he]
  · intro ev hev; cases hev
  · intro ev hev
    rcases List.mem_cons.mp hev with hev | hev
    · subst hev; rfl
    · cases hev

theorem stepLoop_filter_cleanup (bh ah eh : List (Option Hook)) :
    ∀ (funcs : List GoAny) (args : List GoVal) (tr : List Event),
      (stepLoop bh ah eh funcs args tr).trace.filter Event.isCleanup =
        tr.filter Event.isCleanup := by
  intro funcs
  induction funcs with
  | nil => intro args tr; rfl
  | cons fn rest ih =>
    intro args tr
    simp only [stepLoop]
    rcases h : execFunc fn args with m | ⟨args2, err, evs⟩
    · simp [LoopRes.trace, List.filter_append, fireBefore_noCleanup]
    · have hevs := execFunc_noCleanup fn args _ h
      cases err with
      | some e =>
        simp [LoopRes.trace, List.filter_append, fireBefore_noCleanup,
          fireAfter_noCleanup, fireErrH_noCleanup, hevs]
      | none =>
        rw [ih]
        simp [List.filter_append, fireBefore_noCleanup, fireAfter_noCleanup,
          hevs]

theorem do_cleanup_filter (fc : FunChain) (out : List Dest) :
    (fc.Do out).trace.filter Event.isCleanup =
      fc.defers.reverse.map (fun c => Event.cleanupE c.id) := by
  unfold FunChain.Do
  have hstep := stepLoop_filter_cleanup fc.beforeHooks fc.afterHooks fc.errHooks
    fc.funcs [] []
  rcases h : stepLoop fc.beforeHooks fc.afterHooks fc.errHooks fc.funcs [] []
    with ⟨args, tr⟩ | ⟨args2, e, tr⟩ | ⟨m, tr⟩ <;> rw [h] at hstep <;>
    simp only [LoopRes.trace] at hstep
  · rcases hb : (bindOuts args out).2 with _ | m <;>
      simp [hb, List.filter_append, hstep, cleanupEvs_filter]
  · simp [List.filter_append, hstep, cleanupEvs_filter]
  · simp [List.filter_append, hstep, cleanupEvs_filter]

theorem do_trace_split (fc : FunChain) (out : List Dest) :
    ∃ tr0, (fc.Do out).trace =
        tr0 ++ fc.defers.reverse.map (fun c => Event.cleanupE c.id)
      ∧ tr0.filter Event.isCleanup = [] := by
  unfold FunChain.Do
  have hstep := stepLoop_filter_cleanup fc.beforeHooks fc.afterHooks fc.errHooks
    fc.funcs [] []
  rcases h : stepLoop fc.beforeHooks fc.afterHooks fc.errHooks fc.funcs [] []
    with ⟨args, tr⟩ | ⟨args2, e, tr⟩ | ⟨m, tr⟩ <;> rw [h] at hstep <;>
    simp only [LoopRes.trace] at hstep
  · rcases hb : (bindOuts args out).2 with _ | m <;> exact ⟨tr, by simp [hb, hstep]⟩
  · exact ⟨tr, by simp [hstep]⟩
  · exact ⟨tr, by simp [hstep]⟩

/-! ## Helper lemmas about the step loop -/

theorem stepLoop_append (bh ah eh : List (Option Hook)) (l1 l2 : List GoAny) :
    ∀ (args : List GoVal) (tr : List Event),
      stepLoop bh ah eh (l1 ++ l2) args tr =
        match stepLoop bh ah eh l1 args tr with
        | .done a t => stepLoop bh ah eh l2 a t
        | .failed a e t => .failed a e t
        | .crashed m t => .crashed m t := by
  induction l1 with
  | nil => intro args tr; rfl
  | cons fn rest ih =>
    intro args tr
    show stepLoop bh ah eh (fn :: (rest ++ l2)) args tr = _
    simp only [stepLoop]
    rcases h : execFunc fn args with m | ⟨args2, err, evs⟩
    · rfl
    · cases err with
      | some e => rfl
      | none => exact ih args2 _

theorem do_of_failed_step (bh ah eh : List (Option Hook)) (dfs : List Cleanup)
    (pre : List GoAny) (fz : GoAny) (post : List GoAny)
    (args outs : List GoVal) (tr evs : List Event) (e : GoVal) (out : List Dest)
    (hpre : stepLoop bh ah eh pre [] [] = .done args tr)
    (hf : execFunc fz args = .ok (outs, some e, evs)) :
    FunChain.Do ⟨pre ++ fz :: post, dfs, bh, ah, eh⟩ out =
      { outcome := .ret outs (some e),
        trace := tr ++ fireBefore bh args ++ evs ++ fireAfter ah args outs
          ++ fireErrH eh outs e
          ++ dfs.reverse.map (fun c => Event.cleanupE c.id),
        dests := out } := by
  unfold FunChain.Do
  rw [stepLoop_append bh ah eh pre (fz :: post) [] [], hpre]
  simp [stepLoop, hf, List.append_assoc]

theorem do_of_failed_step_noStepRun (bh ah eh : List (Option Hook))
    (dfs : List Cleanup) (pre : List GoAny) (fz : GoAny) (post : List GoAny)
    (args outs : List GoVal) (tr evs : List Event) (e : GoVal) (out : List Dest)
    (hpre : stepLoop bh ah eh pre [] [] = .done args tr)
    (hf : execFunc fz args = .ok (outs, some e, evs)) :
    ∀ ev ∈ (FunChain.Do ⟨pre ++ fz :: post, dfs, bh, ah, eh⟩ out).trace,
      ev.isStepRun = true → ev ∈ tr ++ evs := by
  rw [do_of_failed_step bh ah eh dfs pre fz post args outs tr evs e out hpre hf]
  intro ev hev hrun
  simp only [List.mem_append] at hev
  rcases hev with ((((hev | hev) | hev) | hev) | hev) | hev
  · exact List.mem_append.mpr (Or.inl hev)
  · rw [fireBefore_noStepRun bh args ev hev] at hrun; cases hrun
  · exact List.mem_append.mpr (Or.inr hev)
  · rw [fireAfter_noStepRun ah args outs ev hev] at hrun; cases hrun
  · rw [fireErrH_noStepRun eh outs e ev hev] at hrun; cases hrun
  · rw [cleanupEvs_noStepRun dfs.reverse ev hev] at hrun; cases hrun

/-! ## Helper lemmas about panic scrubbing -/

theorem fireBefore_scrub (hooks : List (Option Hook)) (input : List GoVal) :
    fireBefore (hooks.map scrubHook) input = fireBefore hooks input := by
  induction hooks with
  | nil => rfl
  | cons h rest ih =>
    cases h <;> simp [fireBefore, scrubHook, runBeforeHook, ih]

theorem fireAfter_scrub (hooks : List (Option Hook)) (input output : List GoVal) :
    fireAfter (hooks.map scrubHook) input output = fireAfter hooks input output := by
  induction hooks with
  | nil => rfl
  | cons h rest ih =>
    cases h <;> simp [fireAfter, scrubHook, runAfterHook, ih]

theorem fireErrH_scrub (hooks : List (Option Hook)) (output : List GoVal)
    (e : GoVal) :
    fireErrH (hooks.map scrubHook) output e = fireErrH hooks output e := by
  induction hooks with
  | nil => rfl
  | cons h rest ih =>
    cases h <;> simp [fireErrH, scrubHook, runErrHook, ih]

theorem stepLoop_scrub (bh ah eh : List (Option Hook)) :
    ∀ (funcs : List GoAny) (args : List GoVal) (tr : List Event),
      stepLoop (bh.map scrubHook) (ah.map scrubHook) (eh.map scrubHook)
        funcs args tr = stepLoop bh ah eh funcs args tr := by
  intro funcs
  induction funcs with
  | nil => intro args tr; rfl
  | cons fn rest ih =>
    intro args tr
    simp only [stepLoop, fireBefore_scrub, fireAfter_scrub, fireErrH_scrub]
    rcases h : execFunc fn args with m | ⟨args2, err, evs⟩
    · rfl
    · cases err with
      | some e => rfl
      | none => exact ih args2 _

theorem do_scrub (fc : FunChain) (out : List Dest) :
    FunChain.Do (scrubPanics fc) out = FunChain.Do fc out := by
  unfold FunChain.Do scrubPanics
  simp only [stepLoop_scrub]
  have hmap : (fc.defers.map (fun c => { c with panics := false })).reverse.map
      (fun c => Event.cleanupE c.id) =
      fc.defers.reverse.map (fun c => Event.cleanupE c.id) := by
    simp [List.map_reverse, List.map_map, Function.comp]
  rw [hmap]


/-! ## Helper lemmas about error-slot detection and output splitting -/

theorem findErrAux_some_err :
    ∀ (outs : List GoType) (i j : Nat),
      1 ≤ outs.count GoType.errorIface →
      findErrAux outs i (some j) = .error "more than one error" := by
  intro outs
  induction outs with
  | nil => intro i j h; simp [List.count_nil] at h
  | cons t rest ih =>
    intro i j h
    by_cases ht : t = GoType.errorIface
    · subst ht; simp [findErrAux]
    · have hc : (t :: rest).count GoType.errorIface =
          rest.count GoType.errorIface := by
        simp [List.count_cons, ht]
      rw [findErrAux, if_neg ht]
      exact ih (i + 1) j (by omega)

theorem findErrAux_none_err :
    ∀ (outs : List GoType) (i : Nat),
      2 ≤ outs.count GoType.errorIface →
      findErrAux outs i none = .error "more than one error" := by
  intro outs
  induction outs with
  | nil => intro i h; simp [List.count_nil] at h
  | cons t rest ih =>
    intro i h
    by_cases ht : t = GoType.errorIface
    · subst ht
      have hc : (GoType.errorIface :: rest).count GoType.errorIface =
          rest.count GoType.errorIface + 1 := by
        simp [List.count_cons]
      rw [findErrAux, if_pos rfl]
      exact findErrAux_some_err rest (i + 1) i (by omega)
    · have hc : (t :: rest).count GoType.errorIface =
          rest.count GoType.errorIface := by
        simp [List.count_cons, ht]
      rw [findErrAux, if_neg ht]
      exact ih (i + 1) (by omega)

theorem findErrAux_some_ne_ok_none :
    ∀ (outs : List GoType) (i j : Nat),
      findErrAux outs i (some j) ≠ .ok none := by
  intro outs
  induction outs with
  | nil => intro i j h; cases h
  | cons t rest ih =>
    intro i j h
    by_cases ht : t = GoType.errorIface
    · subst ht; rw [findErrAux, if_pos rfl] at h; cases h
    · rw [findErrAux, if_neg ht] at h
      exact ih (i + 1) j h

theorem findErrAux_ok_none_iff :
    ∀ (outs : List GoType) (i : Nat),
      findErrAux outs i none = .ok none ↔ GoType.errorIface ∉ outs := by
  intro outs
  induction outs with
  | nil => intro i; simp [findErrAux]
  | cons t rest ih =>
    intro i
    by_cases ht : t = GoType.errorIface
    · subst ht
      rw [findErrAux, if_pos rfl]
      constructor
      · intro h
        exact absurd h (findErrAux_some_ne_ok_none rest (i + 1) i)
      · intro h
        exact absurd (List.mem_cons_self _ _) h
    · rw [findErrAux, if_neg ht, ih (i + 1)]
      constructor
      · intro h hmem
        rcases List.mem_cons.mp hmem with hmem | hmem
        · exact ht hmem.symm
        · exact h hmem
      · intro h hmem
        exact h (List.mem_cons_of_mem t hmem)

theorem splitAux_none : ∀ (vals : List GoVal) (k : Nat),
    splitAux vals k none = (vals, none) := by
  intro vals
  induction vals with
  | nil => intro k; rfl
  | cons v rest ih =>
    intro k
    simp [splitAux, ih]

theorem splitAux_below : ∀ (vals : List GoVal) (k i : Nat), i < k →
    splitAux vals k (some i) = (vals, none) := by
  intro vals
  induction vals with
  | nil => intro k i _; rfl
  | cons v rest ih =>
    intro k i hik
    have hne : ¬ (some k = some i) := by
      intro h; cases h; omega
    simp only [splitAux, if_neg hne]
    rw [ih (k + 1) i (by omega)]

theorem splitAux_snd : ∀ (vals : List GoVal) (k j : Nat),
    (splitAux vals k (some (k + j))).2 =
      (match vals.get? j with
       | some (.errV m) => some (.errV m)
       | _ => none) := by
  intro vals
  induction vals with
  | nil => intro k j; simp [splitAux]
  | cons v rest ih =>
    intro k j
    cases j with
    | zero =>
      have hslot : (some k = some (k + 0)) := rfl
      simp only [splitAux, if_pos hslot]
      have hrest := splitAux_below rest (k + 1) (k + 0) (by omega)
      rw [hrest]
      cases v <;> rfl
    | succ j2 =>
      have hne : ¬ (some k = some (k + (j2 + 1))) := by
        intro h
        have h2 : k = k + (j2 + 1) := Option.some.inj h
        omega
      simp only [splitAux, if_neg hne]
      have hih := ih (k + 1) j2
      have harg : k + 1 + j2 = k + (j2 + 1) := by omega
      rw [harg] at hih
      rw [hih]
      rfl

/-! ## Helper lemmas about the dynamic invoker -/

theorem padded_length (f : GoFunc) (args : List GoVal)
    (h : args.length ≤ f.inTypes.length) :
    (args ++ (f.inTypes.drop args.length).map zeroVal).length =
      f.inTypes.length := by
  simp only [List.length_append, List.length_map, List.length_drop]
  omega

theorem execFunc_call (f : GoFunc) (args : List GoVal) (idx : Option Nat)
    (hidx : findErrIndex f.outTypes = .ok idx)
    (hlen : args.length ≤ f.inTypes.length)
    (hty : (List.zip (args ++ (f.inTypes.drop args.length).map zeroVal)
        f.inTypes).all (fun q => assignable q.1.typeOf q.2) = true) :
    execFunc (.fnV f) args =
      match f.body (args ++ (f.inTypes.drop args.length).map zeroVal) with
      | .ret outs => .ok ((splitOutputs outs idx).1, (splitOutputs outs idx).2,
          [Event.stepRun f.id])
      | .panicV p => .ok ([], some (.errV ("panic occurred: " ++ p)),
          [Event.stepRun f.id]) := by
  have hplen := padded_length f args hlen
  have hcall : callGo f (args ++ (f.inTypes.drop args.length).map zeroVal) =
      (f.body (args ++ (f.inTypes.drop args.length).map zeroVal),
       [Event.stepRun f.id]) := by
    unfold callGo
    rw [if_neg (by omega), if_neg (by omega), if_pos hty]
  simp only [execFunc, hidx, hcall]
  cases f.body (args ++ (f.inTypes.drop args.length).map zeroVal) <;> rfl

theorem execFunc_too_many (f : GoFunc) (args : List GoVal) (idx : Option Nat)
    (hidx : findErrIndex f.outTypes = .ok idx)
    (hlen : f.inTypes.length < args.length) :
    execFunc (.fnV f) args =
      .ok ([], some
        (.errV "panic occurred: reflect: Call with too many input arguments"),
        []) := by
  have hdrop : f.inTypes.drop args.length = [] :=
    List.drop_eq_nil_of_le (by omega)
  have hcall : callGo f (args ++ (f.inTypes.drop args.length).map zeroVal) =
      (.panicV "reflect: Call with too many input arguments", []) := by
    rw [hdrop]
    simp only [List.map_nil, List.append_nil]
    unfold callGo
    rw [if_pos hlen]
  simp only [execFunc, hidx, hcall]
  rfl

/-! ## Helper lemmas about output binding -/

theorem bindOuts_spec :
    ∀ (ds : List Dest) (args : List GoVal),
      (∀ i, i < args.length → i < ds.length →
        (ds.getD i dDest).canSet = true →
        assignable (args.getD i dVal).typeOf (ds.getD i dDest).ty = true) →
      (bindOuts args ds).2 = none
      ∧ (bindOuts args ds).1.length = ds.length
      ∧ ∀ i, i < ds.length →
          (bindOuts args ds).1.getD i dDest =
            (if i < args.length ∧ (ds.getD i dDest).canSet = true
             then { ds.getD i dDest with val := args.getD i dVal }
             else ds.getD i dDest) := by
  intro ds
  induction ds with
  | nil =>
    intro args _
    refine ⟨?_, ?_, ?_⟩
    · cases args <;> rfl
    · cases args <;> rfl
    · intro i hi
      exact absurd hi (by simp)
  | cons d ds2 ih =>
    intro args hcompat
    cases args with
    | nil =>
      refine ⟨rfl, rfl, ?_⟩
      intro i _
      rw [if_neg (fun hc => absurd hc.1 (by simp))]
      rfl
    | cons a as2 =>
      have hshift : ∀ i, i < as2.length → i < ds2.length →
          (ds2.getD i dDest).canSet = true →
          assignable (as2.getD i dVal).typeOf (ds2.getD i dDest).ty = true := by
        intro i h1 h2 hcs
        have h3 := hcompat (i + 1) (by simpa using h1) (by simpa using h2)
        simp only [List.getD_cons_succ] at h3
        exact h3 hcs
      have hr := ih as2 hshift
      by_cases hcs : d.canSet = true
      · have h0 := hcompat 0 (by simp) (by simp)
        simp only [List.getD_cons_zero] at h0
        have hty0 := h0 hcs
        have hstep : bindOuts (a :: as2) (d :: ds2) =
            ({ d with val := a } :: (bindOuts as2 ds2).1,
             (bindOuts as2 ds2).2) := by
          simp only [bindOuts, hcs]
          rw [if_neg (by simp), if_pos hty0]
        refine ⟨?_, ?_, ?_⟩
        · rw [hstep]; exact hr.1
        · rw [hstep]; simpa using hr.2.1
        · intro i hi
          rw [hstep]
          cases i with
          | zero =>
            simp only [List.getD_cons_zero]
            rw [if_pos ⟨by simp, by simpa using hcs⟩]
          | succ i2 =>
            simp only [List.getD_cons_succ]
            rw [hr.2.2 i2 (by simpa using hi)]
            by_cases hcond : i2 < as2.length ∧ (ds2.getD i2 dDest).canSet = true
            · rw [if_pos hcond,
                 if_pos ⟨Nat.succ_lt_succ hcond.1, hcond.2⟩]
            · rw [if_neg hcond,
                 if_neg (fun hc => hcond ⟨Nat.lt_of_succ_lt_succ hc.1, hc.2⟩)]
      · have hcs2 : d.canSet = false := by
          cases hval : d.canSet
          · rfl
          · exact absurd hval hcs
        have hstep : bindOuts (a :: as2) (d :: ds2) =
            (d :: (bindOuts as2 ds2).1, (bindOuts as2 ds2).2) := by
          simp [bindOuts, hcs2]
        refine ⟨?_, ?_, ?_⟩
        · rw [hstep]; exact hr.1
        · rw [hstep]; simpa using hr.2.1
        · intro i hi
          rw [hstep]
          cases i with
          | zero =>
            simp only [List.getD_cons_zero]
            rw [if_neg (fun hc => hcs hc.2)]
          | succ i2 =>
            simp only [List.getD_cons_succ]
            rw [hr.2.2 i2 (by simpa using hi)]
            by_cases hcond : i2 < as2.length ∧ (ds2.getD i2 dDest).canSet = true
            · rw [if_pos hcond,
                 if_pos ⟨Nat.succ_lt_succ hcond.1, hcond.2⟩]
            · rw [if_neg hcond,
                 if_neg (fun hc => hcond ⟨Nat.lt_of_succ_lt_succ hc.1, hc.2⟩)]

/-! ## Claim theorems -/

/-- C1: for every chain, if step `i` returns a non-nil error, steps
`i+1..n` are never invoked and `Do` returns exactly the pair
(ordinary outputs of step `i`, that error); the trace equation is
independent of the steps after the failing one, and every step-body
invocation in it comes from the prefix or the failing step, so the error
returned to the caller is the one produced by the failing step. -/
theorem c1_step_error_short_circuit
    (bh ah eh : List (Option Hook)) (dfs : List Cleanup)
    (pre : List GoAny) (fz : GoAny) (post : List GoAny)
    (args outs : List GoVal) (tr evs : List Event) (e : GoVal) (out : List Dest)
    (hpre : stepLoop bh ah eh pre [] [] = .done args tr)
    (hf : execFunc fz args = .ok (outs, some e, evs)) :
    FunChain.Do ⟨pre ++ fz :: post, dfs, bh, ah, eh⟩ out =
      { outcome := .ret outs (some e),
        trace := tr ++ fireBefore bh args ++ evs ++ fireAfter ah args outs
          ++ fireErrH eh outs e
          ++ dfs.reverse.map (fun c => Event.cleanupE c.id),
        dests := out }
    ∧ ∀ ev ∈ (FunChain.Do ⟨pre ++ fz :: post, dfs, bh, ah, eh⟩ out).trace,
        ev.isStepRun = true → ev ∈ tr ++ evs :=
  ⟨do_of_failed_step bh ah eh dfs pre fz post args outs tr evs e out hpre hf,
   do_of_failed_step_noStepRun bh ah eh dfs pre fz post args outs tr evs e out
     hpre hf⟩

/-- Witness for C1 at a concrete chain: `helloFn` succeeds, `failFn`
returns ("boom" error, output 5), `postFn` never runs. -/
theorem c1_witness :
    FunChain.Do ⟨[.fnV helloFn, .fnV failFn, .fnV postFn], [], [], [], []⟩ [] =
      { outcome := .ret [.intV 5] (some (.errV "boom")),
        trace := [.stepRun 3, .stepRun 5], dests := [] } :=
  (c1_step_error_short_circuit [] [] [] [] [.fnV helloFn] (.fnV failFn)
    [.fnV postFn] [.strV "hello"] [.intV 5] [.stepRun 3] [.stepRun 5]
    (.errV "boom") [] rfl rfl).1

/-- C2: every `Do` call runs every registered cleanup exactly once, in
reverse registration order, on every exit path (success, step failure, or
a panic of the driver itself): the cleanup events of the trace are exactly
the reverse of the registration list, and they close the trace. -/
theorem c2_cleanups_reverse_exactly_once :
    ∀ (fc : FunChain) (out : List Dest),
      (fc.Do out).trace.filter Event.isCleanup =
        fc.defers.reverse.map (fun c => Event.cleanupE c.id)
      ∧ ∃ tr0, (fc.Do out).trace =
            tr0 ++ fc.defers.reverse.map (fun c => Event.cleanupE c.id)
          ∧ tr0.filter Event.isCleanup = [] :=
  fun fc out => ⟨do_cleanup_filter fc out, do_trace_split fc out⟩

/-- C3: a panic inside a step body is intercepted and converted into the
ordinary error `panic occurred: <payload>` returned by `Do`, with the same
short-circuiting effect as a declared error: the outcome is a normal
return (no panic escapes), the error hooks fire, the following steps are
absent from the trace, and the cleanups still run. -/
theorem c3_step_panic_contained
    (bh ah eh : List (Option Hook)) (dfs : List Cleanup)
    (pre post : List GoAny) (f : GoFunc) (args : List GoVal)
    (tr : List Event) (idx : Option Nat) (p : String) (out : List Dest)
    (hpre : stepLoop bh ah eh pre [] [] = .done args tr)
    (hidx : findErrIndex f.outTypes = .ok idx)
    (hlen : args.length ≤ f.inTypes.length)
    (hty : (List.zip (args ++ (f.inTypes.drop args.length).map zeroVal)
        f.inTypes).all (fun q => assignable q.1.typeOf q.2) = true)
    (hbody : f.body (args ++ (f.inTypes.drop args.length).map zeroVal) =
        .panicV p) :
    FunChain.Do ⟨pre ++ .fnV f :: post, dfs, bh, ah, eh⟩ out =
      { outcome := .ret [] (some (.errV ("panic occurred: " ++ p))),
        trace := tr ++ fireBefore bh args ++ [Event.stepRun f.id]
          ++ fireAfter ah args []
          ++ fireErrH eh [] (.errV ("panic occurred: " ++ p))
          ++ dfs.reverse.map (fun c => Event.cleanupE c.id),
        dests := out } := by
  have hexec : execFunc (.fnV f) args =
      .ok ([], some (.errV ("panic occurred: " ++ p)), [Event.stepRun f.id]) := by
    rw [execFunc_call f args idx hidx hlen hty, hbody]
  exact do_of_failed_step bh ah eh dfs pre (.fnV f) post args [] tr
    [Event.stepRun f.id] (.errV ("panic occurred: " ++ p)) out hpre hexec

/-- Witness for C3 at a concrete chain: `panicFn` panics with payload
"boom payload"; `Do` returns the converted error and `postFn` never runs. -/
theorem c3_witness :
    FunChain.Do ⟨[.fnV panicFn, .fnV postFn], [], [], [], []⟩ [] =
      { outcome := .ret [] (some (.errV "panic occurred: boom payload")),
        trace := [.stepRun 7], dests := [] } :=
  c3_step_panic_contained [] [] [] [] [] [.fnV postFn] panicFn [] [] none
    "boom payload" [] rfl rfl (by decide) (by decide) rfl

/-- C4: a panic inside any before, after or error hook or cleanup is
swallowed inside `Do`: clearing every panics flag leaves the whole `Do`
result unchanged, every non-nil hook of each kind fires exactly its own
event (no panic prevents the remaining hooks of that kind), and the
cleanup events are always the complete reversed registration list. -/
theorem c4_hook_panics_invisible :
    (∀ (fc : FunChain) (out : List Dest),
       FunChain.Do (scrubPanics fc) out = FunChain.Do fc out)
    ∧ (∀ (hooks : List (Option Hook)) (input : List GoVal),
        fireBefore hooks input =
          hooks.filterMap (Option.map (fun h => Event.beforeE h.id input)))
    ∧ (∀ (hooks : List (Option Hook)) (input output : List GoVal),
        fireAfter hooks input output =
          hooks.filterMap (Option.map (fun h => Event.afterE h.id input output)))
    ∧ (∀ (hooks : List (Option Hook)) (output : List GoVal) (e : GoVal),
        fireErrH hooks output e =
          hooks.filterMap (Option.map (fun h => Event.errE h.id output e)))
    ∧ (∀ (fc : FunChain) (out : List Dest),
        (fc.Do out).trace.filter Event.isCleanup =
          fc.defers.reverse.map (fun c => Event.cleanupE c.id)) :=
  ⟨do_scrub, fireBefore_filterMap, fireAfter_filterMap, fireErrH_filterMap,
   do_cleanup_filter⟩

/-- C5: a callable declaring more than one exactly-`error`-typed output is
rejected with the `more than one error` configuration fault and its body
is never invoked (no invocation event). -/
theorem c5_multiple_error_outputs (f : GoFunc) (args : List GoVal)
    (h : 2 ≤ f.outTypes.count GoType.errorIface) :
    execFunc (.fnV f) args =
      .ok ([], some (.errV "more than one error"), []) := by
  have hfi : findErrIndex f.outTypes = .error "more than one error" :=
    findErrAux_none_err f.outTypes 0 h
  simp only [execFunc, hfi]

/-- Witness for C5 at the two-error-outputs fixture. -/
theorem c5_witness :
    execFunc (.fnV twoErrFn) [] =
      .ok ([], some (.errV "more than one error"), []) :=
  c5_multiple_error_outputs twoErrFn [] (by decide)

/-- C6: when the argument vector is shorter than the callable's parameter
count, the body is invoked on the argument vector extended with the zero
value of each missing parameter type (numbers 0, text empty, boolean
false, pointer-like absent); in particular the chain built with
`New(() -> 7)` then `Then((a, b int) -> a*b)` executed into an int
destination yields 0. -/
theorem c6_zero_padding :
    (∀ (f : GoFunc) (args : List GoVal) (idx : Option Nat) (outs : List GoVal),
       findErrIndex f.outTypes = .ok idx →
       args.length ≤ f.inTypes.length →
       (List.zip (args ++ (f.inTypes.drop args.length).map zeroVal)
         f.inTypes).all (fun q => assignable q.1.typeOf q.2) = true →
       f.body (args ++ (f.inTypes.drop args.length).map zeroVal) = .ret outs →
       execFunc (.fnV f) args =
         .ok ((splitOutputs outs idx).1, (splitOutputs outs idx).2,
           [Event.stepRun f.id]))
    ∧ zeroVal .intT = .intV 0
    ∧ zeroVal .stringT = .strV ""
    ∧ zeroVal .boolT = .boolV false
    ∧ (∀ s, zeroVal (.ptrT s) = .nilOf (.ptrT s))
    ∧ ((New [.fnV seven]).bind (fun c => c.Then [.fnV mulFn])).map
        (fun c => FunChain.Do c
          [{ canSet := true, ty := .intT, val := .intV 99 }]) =
      .ok { outcome := .ret [.intV 0] none,
            trace := [.stepRun 1, .stepRun 2],
            dests := [{ canSet := true, ty := .intT, val := .intV 0 }] } := by
  refine ⟨?_, rfl, rfl, rfl, fun s => rfl, rfl⟩
  intro f args idx outs hidx hlen hty hbody
  rw [execFunc_call f args idx hidx hlen hty, hbody]

/-- Witness for C6: `mulFn` invoked with the single argument 7 receives
`[7, 0]` and returns 0. -/
theorem c6_witness :
    execFunc (.fnV mulFn) [.intV 7] = .ok ([.intV 0], none, [.stepRun 2]) :=
  c6_zero_padding.1 mulFn [.intV 7] none [.intV 0] rfl (by decide) (by decide)
    rfl

/-- C7 counterexample: with two arguments for the one-parameter callable
`oneParamFn`, the excess argument is not dropped: the reflective call
panics, the panic is converted to an error, the body is never invoked
(no invocation event), and the chain short-circuits with that error —
refuting the claimed result of a normal invocation on the first argument. -/
theorem c7_counterexample :
    execFunc (.fnV oneParamFn) [.intV 1, .intV 2] =
      .ok ([],
        some (.errV "panic occurred: reflect: Call with too many input arguments"),
        [])
    ∧ execFunc (.fnV oneParamFn) [.intV 1, .intV 2] ≠
      .ok ([.intV 1], none, [.stepRun 11])
    ∧ (FunChain.Do ⟨[.fnV twoOutFn, .fnV oneParamFn], [], [], [], []⟩
        []).outcome =
      .ret []
        (some (.errV "panic occurred: reflect: Call with too many input arguments")) :=
  ⟨rfl, by
    intro h
    have h2 := Except.ok.inj h
    simp at h2, rfl⟩

/-- C7 amended: when the argument vector is longer than the (non-variadic)
callable's parameter count, no zero padding is added, the reflective call
panics with `too many input arguments`, the panic is converted into an
ordinary error, and the body is never invoked. -/
theorem c7_amended (f : GoFunc) (args : List GoVal) (idx : Option Nat)
    (hidx : findErrIndex f.outTypes = .ok idx)
    (hlen : f.inTypes.length < args.length) :
    execFunc (.fnV f) args =
      .ok ([],
        some (.errV "panic occurred: reflect: Call with too many input arguments"),
        []) :=
  execFunc_too_many f args idx hidx hlen

/-- Witness for the amended C7 at a concrete call. -/
theorem c7_amended_witness :
    execFunc (.fnV oneParamFn) [.intV 5, .intV 6] =
      .ok ([],
        some (.errV "panic occurred: reflect: Call with too many input arguments"),
        []) :=
  c7_amended oneParamFn [.intV 5, .intV 6] none rfl (by decide)

/-- C8 counterexample: on the Failed terminal state the destinations are
not bound: a single failing step with ordinary output 5 and a writable,
int-compatible destination leaves the destination at its old value 99,
refuting binding on the failure path. -/
theorem c8_counterexample :
    (FunChain.Do ⟨[.fnV failFn], [], [], [], []⟩
        [{ canSet := true, ty := .intT, val := .intV 99 }]).outcome =
      .ret [.intV 5] (some (.errV "boom"))
    ∧ (FunChain.Do ⟨[.fnV failFn], [], [], [], []⟩
        [{ canSet := true, ty := .intT, val := .intV 99 }]).dests =
      [{ canSet := true, ty := .intT, val := .intV 99 }]
    ∧ (FunChain.Do ⟨[.fnV failFn], [], [], [], []⟩
        [{ canSet := true, ty := .intT, val := .intV 99 }]).dests ≠
      [{ canSet := true, ty := .intT, val := .intV 5 }] :=
  ⟨rfl, rfl, by decide⟩

/-- Helper: the `Do` of a chain whose step loop succeeds, when the binding
loop does not panic. -/
theorem do_done_eq (fc : FunChain) (out : List Dest) (args : List GoVal)
    (tr : List Event)
    (hdone : stepLoop fc.beforeHooks fc.afterHooks fc.errHooks fc.funcs [] [] =
        .done args tr)
    (hnone : (bindOuts args out).2 = none) :
    fc.Do out =
      { outcome := .ret args none,
        trace := tr ++ fc.defers.reverse.map (fun c => Event.cleanupE c.id),
        dests := (bindOuts args out).1 } := by
  unfold FunChain.Do
  rw [hdone]
  simp only [hnone]

/-- C8 amended: output binding happens only on the Succeeded terminal
state; there, for each destination index `i < min(len(args), len(out))`
whose destination is writable (and, by hypothesis, type-compatible),
`args[i]` is bound into destination `i`; a non-writable destination is
silently skipped and destinations beyond the available outputs are left
untouched.  On the Failed state `Do` returns before the binding loop
(see the counterexample). -/
theorem c8_amended (fc : FunChain) (out : List Dest) (args : List GoVal)
    (tr : List Event)
    (hdone : stepLoop fc.beforeHooks fc.afterHooks fc.errHooks fc.funcs [] [] =
        .done args tr)
    (hcompat : ∀ i, i < args.length → i < out.length →
        (out.getD i dDest).canSet = true →
        assignable (args.getD i dVal).typeOf (out.getD i dDest).ty = true) :
    (fc.Do out).outcome = .ret args none
    ∧ (fc.Do out).dests.length = out.length
    ∧ ∀ i, i < out.length →
        (fc.Do out).dests.getD i dDest =
          (if i < args.length ∧ (out.getD i dDest).canSet = true
           then { out.getD i dDest with val := args.getD i dVal }
           else out.getD i dDest) := by
  have hb := bindOuts_spec out args hcompat
  rw [do_done_eq fc out args tr hdone hb.1]
  exact ⟨rfl, hb.2.1, hb.2.2⟩

/-- Witness for the amended C8: a successful chain with output 5, one
writable destination (bound to 5) and one non-writable destination
(left untouched). -/
theorem c8_amended_witness :
    (FunChain.Do ⟨[.fnV okFn], [], [], [], []⟩
      [{ canSet := true, ty := .intT, val := .intV 99 },
       { canSet := false, ty := .intT, val := .intV 77 }]).outcome =
      .ret [.intV 5] none
    ∧ (FunChain.Do ⟨[.fnV okFn], [], [], [], []⟩
      [{ canSet := true, ty := .intT, val := .intV 99 },
       { canSet := false, ty := .intT, val := .intV 77 }]).dests.getD 0 dDest =
      { canSet := true, ty := .intT, val := .intV 5 }
    ∧ (FunChain.Do ⟨[.fnV okFn], [], [], [], []⟩
      [{ canSet := true, ty := .intT, val := .intV 99 },
       { canSet := false, ty := .intT, val := .intV 77 }]).dests.getD 1 dDest =
      { canSet := false, ty := .intT, val := .intV 77 } := by
  have h := c8_amended ⟨[.fnV okFn], [], [], [], []⟩
    [{ canSet := true, ty := .intT, val := .intV 99 },
     { canSet := false, ty := .intT, val := .intV 77 }]
    [.intV 5] [.stepRun 13] rfl
    (by
      intro i h1 h2 hcs
      have hi0 : i = 0 := by
        have : i < 1 := by simpa using h1
        omega
      subst hi0
      decide)
  refine ⟨h.1, ?_, ?_⟩
  · rw [h.2.2 0 (by decide)]
    decide
  · rw [h.2.2 1 (by decide)]
    decide

/-- C9 evaluation: a nil interface argument to `New` or `Then` is not
silently skipped — `reflect.TypeOf(nil)` is nil, so the `Kind()` call
panics with a nil pointer dereference, contradicting the documented
behaviour; non-nil non-callable arguments are silently skipped and the
step list is extended with the callable arguments in order. -/
theorem c9_nil_argument_evaluation :
    New [GoAny.nilAny] =
      .error "runtime error: invalid memory address or nil pointer dereference"
    ∧ FunChain.Then ⟨[], [], [], [], []⟩ [GoAny.nilAny] =
      .error "runtime error: invalid memory address or nil pointer dereference"
    ∧ New [GoAny.val (.intV 3), GoAny.fnV seven] =
      .ok ⟨[.fnV seven], [], [], [], []⟩
    ∧ FunChain.Then ⟨[.fnV seven], [], [], [], []⟩
        [GoAny.val (.strV "x"), GoAny.fnV mulFn] =
      .ok ⟨[.fnV seven, .fnV mulFn], [], [], [], []⟩ :=
  ⟨rfl, rfl, rfl, rfl⟩

/-- C10: error-slot detection uses exact type identity with the `error`
interface type: detection reports no slot exactly when no output position
is declared as the `error` interface itself (a concrete error type is not
a slot), splitting with no slot passes every value along as an ordinary
output, the value at a detected slot becomes the step error only when it
is a non-nil error value (a nil value yields a nil step error), and a step
returning a concrete error value flows into the next step as an ordinary
argument. -/
theorem c10_error_slot_exact_identity :
    (∀ outs : List GoType,
        findErrIndex outs = .ok none ↔ GoType.errorIface ∉ outs)
    ∧ (∀ vals : List GoVal, splitOutputs vals none = (vals, none))
    ∧ (∀ (vals : List GoVal) (i : Nat),
        (splitOutputs vals (some i)).2 =
          (match vals.get? i with
           | some (.errV m) => some (.errV m)
           | _ => none))
    ∧ execFunc (.fnV concErrFn) [] = .ok ([.errV "boom"], none, [.stepRun 12])
    ∧ (FunChain.Do ⟨[.fnV concErrFn, .fnV readErrFn], [], [], [], []⟩
        []).outcome = .ret [.strV "boom"] none
    ∧ execFunc (.fnV okFn) [] = .ok ([.intV 5], none, [.stepRun 13]) := by
  refine ⟨?_, ?_, ?_, rfl, rfl, rfl⟩
  · intro outs
    exact findErrAux_ok_none_iff outs 0
  · intro vals
    exact splitAux_none vals 0
  · intro vals i
    have h := splitAux_snd vals 0 i
    rw [Nat.zero_add] at h
    exact h

/-- Witness for C10: a concrete-error output type is not detected as the
error slot, and a nil value at a detected slot yields a nil step error. -/
theorem c10_witness :
    findErrIndex [GoType.concreteErr "myErr", GoType.intT] = .ok none
    ∧ (splitOutputs [GoVal.nilOf .errorIface] (some 0)).2 = none :=
  ⟨(c10_error_slot_exact_identity.1 _).mpr (by decide),
   by
    rw [c10_error_slot_exact_identity.2.2.1 [GoVal.nilOf .errorIface] 0]
    rfl⟩
